import Mathlib

/-!
Verification development for the Preql interpreter core.

The definitions below are a shallow embedding of the Python sources:
`preql/compiler.py`, `preql/evaluate.py`, `preql/pql_objects.py` and
`preql/interp_common.py`.  Pure fragments become Lean functions; raised
exceptions become `Except` errors; Python lists and dicts become Lean
lists (dicts as insertion-ordered association lists).  Operations whose
defining module is not part of the source tree (the type lattice of
`pql_types.py`, the SQL constructors of `sql.py`, the helpers of
`utils.py`) are modelled from the specification document, as noted on
each definition; SQL IR constructors are inert data shaped after their
call sites.
-/

set_option autoImplicit false

namespace Preql

/-! ### Decimal rendering of naturals (Python `str(i)`) -/

/-- Little-endian decimal digits of `n`, computed with explicit fuel so the
definition is structurally recursive (`decDigitsAux n n` is complete). -/
def decDigitsAux : Nat → Nat → List Nat
  | 0, _ => []
  | fuel + 1, n => if n = 0 then [] else n % 10 :: decDigitsAux fuel (n / 10)

/-- Little-endian decimal digits of `n`. -/
def decDigits (n : Nat) : List Nat := decDigitsAux n n

/-- Value of a little-endian digit list. -/
def evalDigits : List Nat → Nat
  | [] => 0
  | d :: ds => d + 10 * evalDigits ds

/-- Character for a single decimal digit (codepoint 48 + d). -/
def pyDigitChar (d : Nat) : Char := Char.ofNat (48 + d)

/-- Decimal rendering of a natural number, as Python `str` produces it. -/
def decRepr (n : Nat) : String :=
  if n = 0 then "0" else String.mk ((decDigits n).reverse.map pyDigitChar)

/-- Rendering of a Python value by `str`, as used for row ids in Update. -/
def pyIntStr (n : Int) : String :=
  if n < 0 then "-" ++ decRepr n.natAbs else decRepr n.toNat

/-! ### The type lattice

Modelled from the spec: `preql/pql_types.py` is not under the source
tree.  Spec section 4.1 fixes the subtype rules: identity, the chain
`int ≤ number`, `float ≤ number`, `number ≤ primitive`, containers by
kind (`table ≤ collection`, `list ≤ collection`), `row[T] ≤ struct`,
`aggregate[T]` a sibling of `T`, and `x ≤ union[A,B]` iff
`x ≤ A ∨ x ≤ B`.  The constructors `tableK`, `structK` and `aggregateK`
stand for the bare generic types `T.table`, `T.struct`, `T.aggregate`
used at check sites. -/

inductive PqlType where
  | any
  | object
  | primitive
  | number
  | int
  | float
  | bool
  | string
  | null
  | ttype
  | collection
  | tableK
  | structK
  | aggregateK
  | table (elems : List (String × PqlType))
  | tlist (elem : PqlType)
  | tstruct (elems : List (String × PqlType))
  | row (elem : PqlType)
  | aggregate (elem : PqlType)
  | union (elems : List PqlType)

mutual

/-- Structural equality of types (Python `==` on type objects). -/
def pqlTypeBeq : PqlType → PqlType → Bool
  | .any, .any => true
  | .object, .object => true
  | .primitive, .primitive => true
  | .number, .number => true
  | .int, .int => true
  | .float, .float => true
  | .bool, .bool => true
  | .string, .string => true
  | .null, .null => true
  | .ttype, .ttype => true
  | .collection, .collection => true
  | .tableK, .tableK => true
  | .structK, .structK => true
  | .aggregateK, .aggregateK => true
  | .table a, .table b => pqlTypeElemsBeq a b
  | .tlist a, .tlist b => pqlTypeBeq a b
  | .tstruct a, .tstruct b => pqlTypeElemsBeq a b
  | .row a, .row b => pqlTypeBeq a b
  | .aggregate a, .aggregate b => pqlTypeBeq a b
  | .union a, .union b => pqlTypeListBeq a b
  | _, _ => false

/-- Structural equality of named element lists. -/
def pqlTypeElemsBeq : List (String × PqlType) → List (String × PqlType) → Bool
  | [], [] => true
  | (n, t) :: xs, (m, u) :: ys => n == m && pqlTypeBeq t u && pqlTypeElemsBeq xs ys
  | _, _ => false

/-- Structural equality of type lists. -/
def pqlTypeListBeq : List PqlType → List PqlType → Bool
  | [], [] => true
  | t :: xs, u :: ys => pqlTypeBeq t u && pqlTypeListBeq xs ys
  | _, _ => false

end

mutual

/-- Modelled from the spec: the subtype test `t <= u` of the missing
`pql_types.py`, following the rules of spec section 4.1. -/
def isSubtype : PqlType → PqlType → Bool
  | _, .any => true
  | _, .object => true
  | t, .union els => isSubtypeAny t els
  | .int, .number => true
  | .float, .number => true
  | .int, .primitive => true
  | .float, .primitive => true
  | .number, .primitive => true
  | .bool, .primitive => true
  | .string, .primitive => true
  | .table _, .collection => true
  | .tableK, .collection => true
  | .tlist _, .collection => true
  | .table _, .tableK => true
  | .tlist _, .tableK => true
  | .tstruct _, .structK => true
  | .row _, .structK => true
  | .aggregate _, .aggregateK => true
  | .tlist a, .tlist b => isSubtype a b
  | .row a, .row b => isSubtype a b
  | .aggregate a, .aggregate b => isSubtype a b
  | a, b => pqlTypeBeq a b

/-- Disjunctive arm of the subtype test: `t ≤ union[els]` iff `t` is a
subtype of some member. -/
def isSubtypeAny : PqlType → List PqlType → Bool
  | _, [] => false
  | t, u :: us => isSubtype t u || isSubtypeAny t us

end

/-! ### Python-side values and the SQL IR -/

/-- Host (Python) values, as held by ValueInstance and localized rows. -/
inductive PyVal where
  | int (n : Int)
  | bool (b : Bool)
  | str (s : String)
  | vnone

/-- Rendering by Python `str`, used when an id value is spliced into a
Primitive (`sql.Primitive(types.Int, str(id_))` in `evaluate.py`). -/
def pyStr : PyVal → String
  | .int n => pyIntStr n
  | .bool b => if b then "True" else "False"
  | .str s => s
  | .vnone => "None"

/-- SQL IR node shapes as used from `compiler.py` and `evaluate.py`
(`sql.py` itself is not under the source tree; these constructors mirror
the call sites and spec section 4.2 and carry no behaviour).
`compareB` is the older `sql.Compare(type, op, args)` form used by
`evaluate.py`. -/
inductive Sql where
  | nullLit
  | primitive (t : PqlType) (lit : String)
  | name (t : PqlType) (ident : String)
  | tableName (t : PqlType) (ident : String)
  | columnAlias (code : Sql) (colAlias : String)
  | select (t : PqlType) (source : Sql) (fields : List Sql) (group_by : List Sql)
      (limit : Option Sql)
  | compare (op : String) (args : List Sql)
  | compareB (t : PqlType) (op : String) (args : List Sql)
  | arith (t : PqlType) (op : String) (args : List Sql)
  | makeArray (t : PqlType) (inner : Sql)
  | update (t : PqlType) (tbl : Sql) (assignments : List (Sql × Sql)) (conds : List Sql)
  | desc (inner : Sql)
  | param (t : PqlType) (pname : String)

/-- Raised exceptions: the typed Preql errors of `exceptions.py` plus
host-level (Python) exceptions and the two control signals. -/
inductive PErr where
  | typeError (msg : String)
  | valueError (msg : String)
  | syntaxError (msg : String)
  | nameNotFound (nm : String)
  | insufficientAccess
  | returnSignal
  | pyError (msg : String)

/-- Runtime instance: a record of SQL code and a type (`pql_objects.py`).
A `ValueInstance` additionally holds a local Python value; `value?` is
`some v` exactly for value instances.  Subquery maps are not modelled
(no claim mentions them). -/
structure Instance where
  code : Sql
  type : PqlType
  value? : Option PyVal := none

/-- Evaluation results that the projection compiler distinguishes: the
singleton `objects.EmptyList`, a struct instance with its member map, or
any other instance. -/
inductive PValue where
  | emptyList
  | structInst (t : PqlType) (fields : List (String × Instance))
  | inst (i : Instance)

/-- Type of an evaluated value (`.type` in the source).  `EmptyList` is
the empty `list[any]` made by `compile_to_inst` for `ast.List_`. -/
def PValue.typeOf : PValue → PqlType
  | .emptyList => .tlist .any
  | .structInst t _ => t
  | .inst i => i.type

/-- Code of an evaluated value (`.code` in the source); struct instances
and the empty list never reach a code-consuming position in the claims. -/
def PValue.codeOf : PValue → Sql
  | .emptyList => .nullLit
  | .structInst _ _ => .nullLit
  | .inst i => i.code

/-! ### Expressions, as far as the projection pipeline inspects them -/

/-- Expression shapes the projection code distinguishes: a plain `Name`,
an `Ellipsis` with its exclusion list, or anything else.  For the last
kind, `idx` identifies the expression (evaluation is an oracle keyed on
the whole expression) and `guessed` is the value that the
`guess_field_name` dispatch of `compiler.py` returns on it (an `Attr`
chain yields a dotted path, the default arm yields an underscore). -/
inductive PExpr where
  | nameE (s : String)
  | ellipsisE (exclude : List String)
  | other (idx : Nat) (guessed : String)

/-- Named field of a projection or update (`ast.NamedField`). -/
structure NamedField where
  name : Option String
  value : PExpr

/-- Dispatch of `guess_field_name` restricted to the shapes of `PExpr`. -/
def guessFieldName : PExpr → String
  | .nameE s => s
  | .other _ g => g
  | .ellipsisE _ => "_"

/-- Python `suggested_name.rsplit(".", 1)[-1]`: the part after the last
dot, or the whole string if there is no dot. -/
def lastDotComponent (s : String) : String :=
  String.mk ((s.data.reverse.takeWhile (fun c => c != '.')).reverse)

/-! ### Field-name collision resolution (`compile_to_inst`, Projection) -/

/-- Candidate name tried by the collision loop: `name_ + str(i)`. -/
def candName (base : String) (i : Nat) : String := base ++ decRepr i

/-- The while-loop of the collision resolution: starting at suffix `i`,
return the first candidate not among `keys` (fuelled; the caller supplies
enough fuel for termination). -/
def findSuffix (keys : List String) (base : String) : Nat → Nat → String
  | 0, i => candName base i
  | fuel + 1, i =>
    if candName base i ∈ keys then findSuffix keys base fuel (i + 1)
    else candName base i

/-- Name assignment of `compile_to_inst` (Projection): `name = name_`,
then while `name in elems` try `name_ + str(i)` for `i = 1, 2, ...`. -/
def resolveFieldName (keys : List String) (base : String) : String :=
  if base ∈ keys then findSuffix keys base (keys.length + 1) 1 else base

/-- One step of building the `elems` dict: insert the field under its
resolved name (dicts are insertion-ordered association lists). -/
def addFieldName (elems : List (String × PqlType)) (base : String) (t : PqlType) :
    List (String × PqlType) :=
  elems ++ [(resolveFieldName (elems.map Prod.fst) base, t)]

/-- The `elems` dict of the new projection type: each processed field
contributes its instance type under its collision-resolved name. -/
def projElems (all_fields : List (String × Instance)) : List (String × PqlType) :=
  all_fields.foldl (fun acc f => addFieldName acc f.1 f.2.type) []

/-! ### The projection compiler (`compile_to_inst` for `ast.Projection`) -/

/-- Evaluation context for the projection compiler.  Evaluation of field
expressions, primary keys, flattening and column enumeration live in
modules outside the compiled function (or depend on interpreter state);
they are oracles here, and every theorem quantifies over them. -/
structure ProjEnv where
  /-- Evaluation of a field expression with the table attributes in scope. -/
  evalExpr : PExpr → Except PErr Instance
  /-- Evaluation of an aggregate field expression, with every attribute
  wrapped in `aggregate`. -/
  evalAggExpr : PExpr → Except PErr Instance
  /-- The `primary_key` method of instances. -/
  primaryKey : Instance → Instance
  /-- The `flatten_code` method of instances. -/
  flattenCode : Instance → List Sql
  /-- The `flatten_type` function of `pql_types.py`. -/
  flattenType : PqlType → List (String × PqlType)
  /-- Column names of a table type (`table_to_struct(t).elems`). -/
  colNames : PqlType → List String

/-- Names of fields that are plain `Name` expressions (used by the
ellipsis expansion to avoid re-listing explicitly named columns). -/
def directNames (fields : List NamedField) : List String :=
  fields.filterMap (fun f => match f.value with | .nameE s => some s | _ => none)

/-- The `_expand_ellipsis` generator: each ellipsis field expands to the
source columns not named directly and not excluded, in table order. -/
def expandEllipsisAux (dn : List String) (colNames : List String) :
    List NamedField → Except PErr (List NamedField)
  | [] => .ok []
  | f :: fs =>
    match f.value with
    | .ellipsisE exclude =>
      if f.name.isSome then
        .error (.syntaxError "Cannot use a name for ellipsis (inlining operation does not accept a name)")
      else
        match expandEllipsisAux dn colNames fs with
        | .error e => .error e
        | .ok rest =>
          .ok (((colNames.filter (fun c => !(dn.contains c || exclude.contains c))).map
            (fun c => ⟨some c, .nameE c⟩)) ++ rest)
    | _ =>
      match expandEllipsisAux dn colNames fs with
      | .error e => .error e
      | .ok rest => .ok (f :: rest)

/-- Ellipsis expansion over a field list. -/
def expandEllipsis (colNames : List String) (fields : List NamedField) :
    Except PErr (List NamedField) :=
  expandEllipsisAux (directNames fields) colNames fields

/-- Modelled from the spec: `find_duplicate` of the missing `utils.py`;
spec section 4.3.1 step 4: any two explicit fields sharing a name are an
error.  Returns the first name that occurs again later in the list. -/
def firstDupName : List String → Option String
  | [] => none
  | x :: xs => if x ∈ xs then some x else firstDupName xs

/-- Duplicate detection over the explicitly named fields (the source
checks `proj.fields + proj.agg_fields`, before ellipsis expansion). -/
def findDuplicateName (fields : List NamedField) : Option String :=
  firstDupName (fields.filterMap (fun f => f.name))

/-- The `_process_fields` body for one field: compute the suggested name,
evaluate the expression, and collapse aggregates to `MakeArray` over the
primary key. -/
def processField (evalE : PExpr → Except PErr Instance) (pk : Instance → Instance)
    (f : NamedField) : Except PErr (String × Instance) :=
  let suggested := match f.name with | some n => n | none => guessFieldName f.value
  let nm := lastDotComponent suggested
  match evalE f.value with
  | .error e => .error e
  | .ok v =>
    if isSubtype v.type .aggregateK then
      let v2 := pk v
      .ok (nm, { code := Sql.makeArray v2.type v2.code, type := v2.type })
    else .ok (nm, v)

/-- The `_process_fields` loop. -/
def processFields (evalE : PExpr → Except PErr Instance) (pk : Instance → Instance) :
    List NamedField → Except PErr (List (String × Instance))
  | [] => .ok []
  | f :: fs =>
    match processField evalE pk f with
    | .error e => .error e
    | .ok p =>
      match processFields evalE pk fs with
      | .error e => .error e
      | .ok ps => .ok (p :: ps)

/-- Modelled from the spec: `safezip` of the missing `utils.py` zips two
lists and raises on a length mismatch. -/
def safezip {α β : Type} (xs : List α) (ys : List β) : Except PErr (List (α × β)) :=
  if xs.length = ys.length then .ok (xs.zip ys) else .error (.pyError "safezip: length mismatch")

/-- Positional GROUP BY references `1 .. n` as integer primitives. -/
def posRefs (n : Nat) : List Sql :=
  (List.range n).map (fun i => Sql.primitive .int (decRepr (i + 1)))

/-- The projection compiler, `compile_to_inst(state, proj: ast.Projection)`
of `compiler.py`: short-circuit on the empty list, check the table type,
expand ellipses, reject duplicate names, process fields (struct tables
project locally), process aggregate fields, build the collision-resolved
element map and emit a Select with positional GROUP BY (or LIMIT 1 when
grouping by nothing). -/
def compileProjection (env : ProjEnv) (tableVal : PValue) (fields : List NamedField)
    (groupby : Bool) (aggFields : List NamedField) : Except PErr PValue :=
  match tableVal with
  | .emptyList => .ok .emptyList
  | tv =>
    if isSubtype tv.typeOf (.union [.collection, .structK]) = false then
      .error (.typeError "Cannot project objects of this type")
    else
      match expandEllipsis (env.colNames tv.typeOf) fields with
      | .error e => .error e
      | .ok fields2 =>
        match findDuplicateName (fields ++ aggFields) with
        | some d => .error (.typeError ("Field was already used in this projection: " ++ d))
        | none =>
          match processFields env.evalExpr env.primaryKey fields2 with
          | .error e => .error e
          | .ok pfields =>
            if pfields.all
                (fun p => isSubtype p.2.type (.union [.primitive, .structK, .null])) = false then
              .error (.typeError "Cannot project values of this type")
            else
              match tv with
              | .structInst _ _ =>
                .ok (.structInst (.tstruct (pfields.map (fun p => (p.1, p.2.type)))) pfields)
              | _ =>
                match (if aggFields.isEmpty then .ok []
                       else processFields env.evalAggExpr env.primaryKey aggFields) with
                | .error e => .error e
                | .ok apfields =>
                  let allFields := pfields ++ apfields
                  let elems := projElems allFields
                  let newType := PqlType.table elems
                  let flatCodes := allFields.foldr (fun p acc => env.flattenCode p.2 ++ acc) []
                  match safezip flatCodes (env.flattenType newType) with
                  | .error e => .error e
                  | .ok zipped =>
                    let sqlFields := zipped.map (fun cz => Sql.columnAlias cz.1 cz.2.1)
                    let gl : List Sql × Option Sql :=
                      if groupby then
                        if pfields.isEmpty then ([], some (Sql.primitive .int "1"))
                        else (posRefs pfields.length, none)
                      else ([], none)
                    .ok (.inst { code := Sql.select newType tv.codeOf sqlFields gl.1 gl.2,
                                 type := newType })

/-! ### Arithmetic on numbers (`_compile_arith` for `T.number, T.number`) -/

/-- Modelled from the spec: `objects.new_value_instance(value, type)` of
the missing module makes a `ValueInstance` carrying the local value. -/
def newValueInstance (v : PyVal) (t : PqlType) : Instance :=
  { code := Sql.primitive t (pyStr v), type := t, value? := some v }

/-- Result type of the number/number arm: float when dividing or when
either operand type is (a subtype of) float, else int. -/
def arithResType (op : String) (ta tb : PqlType) : PqlType :=
  if op == "/" || isSubtype ta .float || isSubtype tb .float then .float else .int

/-- Operator keys of the local-folding dict in `_compile_arith`; any other
operator raises a host KeyError on the folding path. -/
def hostFoldOps : List String := ["+", "-", "*", "/", "/~"]

/-- The `_compile_arith` arm for two numbers: compute the result type,
fold locally when optimization is on and both operands are value
instances (the host arithmetic is an oracle), else emit an Arith node.
Exactly mirrors `compiler.py` lines 374-392. -/
def compileArithNumNum (optimize : Bool) (hostArith : String → PyVal → PyVal → PyVal)
    (op : String) (a b : Instance) : Except PErr Instance :=
  let resType := arithResType op a.type b.type
  match a.value?, b.value? with
  | some va, some vb =>
    if optimize then
      if op ∈ hostFoldOps then .ok (newValueInstance (hostArith op va vb) resType)
      else .error (.pyError "KeyError")
    else .ok { code := Sql.arith resType op [a.code, b.code], type := resType }
  | _, _ => .ok { code := Sql.arith resType op [a.code, b.code], type := resType }

/-! ### Comparison (`_compare` dispatch and `compile_to_inst` for Compare) -/

/-- Operator keys of the local-folding dict in the primitive/primitive
arm of `_compare`. -/
def hostCmpOps : List String := ["=", "!=", "<>", ">", "<", ">=", "<="]

/-- The `_compare` multiple dispatch, arms in specificity order as the
runtime dispatcher selects them.  The null/null arm returns the constant
true value-instance for every operator.  Arms for operands of type,
aggregate and row kinds are not modelled (no claim constructs such
operands); they fall to the default TypeError arm. -/
def compareDispatch (optimize : Bool) (hostCmp : String → PyVal → PyVal → Bool)
    (pk : Instance → Instance) (op : String) (a b : Instance) : Except PErr Instance :=
  if pqlTypeBeq a.type .null && pqlTypeBeq b.type .null then
    .ok (newValueInstance (.bool true) .bool)
  else if pqlTypeBeq a.type .null then
    let b2 := if isSubtype b.type .structK then pk b else b
    .ok { code := Sql.compare op [a.code, b2.code], type := .bool }
  else if pqlTypeBeq b.type .null then
    let a2 := if isSubtype a.type .structK then pk a else a
    .ok { code := Sql.compare op [b.code, a2.code], type := .bool }
  else if isSubtype a.type .primitive && isSubtype b.type .primitive then
    match a.value?, b.value? with
    | some va, some vb =>
      if optimize then
        if op ∈ hostCmpOps then .ok (newValueInstance (.bool (hostCmp op va vb)) .bool)
        else .error (.pyError "KeyError")
      else .ok { code := Sql.compare op [a.code, b.code], type := .bool }
    | _, _ => .ok { code := Sql.compare op [a.code, b.code], type := .bool }
  else .error (.typeError "Compare not implemented for these types")

/-- The `compile_to_inst` arm for `ast.Compare`: `in`/`!in` route to the
contains dispatch (an oracle here), every other operator is normalized
(`==` to `=`, `<>` to `!=`) and handed to `_compare`. -/
def compileCompare (containsF : String → Instance → Instance → Except PErr Instance)
    (optimize : Bool) (hostCmp : String → PyVal → PyVal → Bool) (pk : Instance → Instance)
    (op : String) (a b : Instance) : Except PErr Instance :=
  if op == "in" || op == "!in" then containsF op a b
  else
    let op2 := if op == "==" then "=" else if op == "<>" then "!=" else op
    compareDispatch optimize hostCmp pk op2 a b

/-! ### The Or short-circuit (`simplify` for `ast.Or`, `evaluate.py`) -/

/-- The loop of `simplify(state, obj: ast.Or)`: evaluate each operand in
order, return the first whose `test_nonzero` is true, and after an
all-falsy loop return the last inspected instance.  Evaluation and the
nonzero test are oracles (they touch interpreter state and the database);
an empty operand list leaves the loop variable unbound. -/
def simplifyOr {α β : Type} (ev : α → Except PErr β) (nz : β → Except PErr Bool) :
    List α → Except PErr β
  | [] => .error (.pyError "UnboundLocalError")
  | x :: xs =>
    match ev x with
    | .error e => .error e
    | .ok i =>
      match nz i with
      | .error e => .error e
      | .ok b =>
        if b then .ok i
        else
          match xs with
          | [] => .ok i
          | _ :: _ => simplifyOr ev nz xs

/-! ### The Try statement (`_execute` for `ast.Try`, `evaluate.py`) -/

/-- Exception classes of `exceptions.py`. -/
inductive PqlExcClass where
  | preqlError
  | typeErrorC
  | valueErrorC
  | nameNotFoundC
  | attributeErrorC
  | syntaxErrorC
  | joinErrorC
  deriving DecidableEq

/-- Subclass relation of `exceptions.py`: every concrete error class
derives `PreqlError` (Python `isinstance` on the caught error). -/
def excSubclass (a b : PqlExcClass) : Bool :=
  a == b || b == .preqlError

/-- A raised Preql error value: its runtime class and message. -/
structure PqlExcVal where
  cls : PqlExcClass
  msg : String
  deriving DecidableEq

/-- Outcome of executing a statement block: normal completion, a raised
`PreqlError`, or any other raised exception (host errors,
`ReturnSignal`), which `except PreqlError` does not catch. -/
inductive ExecResult where
  | ok
  | preqlRaised (e : PqlExcVal)
  | hostRaised (tag : String)
  deriving DecidableEq

/-- A lexical scope and the namespace stack of `interp_common.py`. -/
abbrev Scope (V : Type) := List (String × V)

/-- Namespace stack: Python appends new scopes at the end of the list. -/
abbrev NsStack (V : Type) := List (Scope V)

/-- Name lookup across the stack, innermost (last) scope first. -/
def lookupNs {V : Type} (ns : NsStack V) (nm : String) : Option V :=
  match ns with
  | [] => none
  | sc :: rest =>
    match lookupNs rest nm with
    | some v => some v
    | none => (sc.find? (fun kv => kv.1 == nm)).map Prod.snd

/-- The `_execute` arm for `ast.Try` in `evaluate.py`: run the try block;
when a `PreqlError` is raised, evaluate the catch expression to a class
and, if the raised error is an instance of it, run the catch block — in
the unchanged namespace, ignoring `catch_name` — else re-raise.  Other
exceptions propagate.  The block runners and the catch-expression
evaluator are oracles over the namespace. -/
def executeTry {V : Type} (ns : NsStack V)
    (runTry : NsStack V → ExecResult)
    (evalCatchExpr : NsStack V → Except PqlExcVal PqlExcClass)
    (catchName : Option String)
    (runCatch : NsStack V → ExecResult) : ExecResult :=
  match runTry ns with
  | .ok => .ok
  | .hostRaised t => .hostRaised t
  | .preqlRaised e =>
    match evalCatchExpr ns with
    | .error e2 => .preqlRaised e2
    | .ok cls =>
      if excSubclass e.cls cls then runCatch ns else .preqlRaised e

/-- Binding of a value under an optional name in a fresh innermost scope. -/
def bindName {V : Type} (ns : NsStack V) (nm : Option String) (v : V) : NsStack V :=
  match nm with
  | none => ns
  | some n => ns ++ [[(n, v)]]

/-- Try semantics as the specification words it: identical to
`executeTry` except that the caught error is bound to `catch_name` for
the catch block.  Stated only to be compared with `executeTry`. -/
def executeTrySpec {V : Type} (injE : PqlExcVal → V) (ns : NsStack V)
    (runTry : NsStack V → ExecResult)
    (evalCatchExpr : NsStack V → Except PqlExcVal PqlExcClass)
    (catchName : Option String)
    (runCatch : NsStack V → ExecResult) : ExecResult :=
  match runTry ns with
  | .ok => .ok
  | .hostRaised t => .hostRaised t
  | .preqlRaised e =>
    match evalCatchExpr ns with
    | .error e2 => .preqlRaised e2
    | .ok cls =>
      if excSubclass e.cls cls then runCatch (bindName ns catchName (injE e))
      else .preqlRaised e

/-! ### The Update statement (`simplify` for `ast.Update`, `evaluate.py`) -/

/-- A localized row: ordered mapping from column name to host value. -/
abbrev Row := List (String × PyVal)

/-- Key lookup in a localized row (`row["id"]`). -/
def lookupRow (row : Row) (k : String) : Option PyVal :=
  (row.find? (fun kv => kv.1 == k)).map Prod.snd

/-- Table instance as the Update path consumes it: its type, the table
name carried by the type, the column map and the code. -/
structure UTableInst where
  ttype : PqlType
  tname : String
  columns : List (String × Instance)
  code : Sql

/-- The scope pushed for RHS evaluation: every column instance with its
code replaced by a plain `Name` of the column. -/
def updateScope (cols : List (String × Instance)) : List (String × Instance) :=
  cols.map (fun nc => (nc.1, { nc.2 with code := Sql.name nc.2.type nc.1 }))

/-- Evaluation of the named update fields to the `proj` dict. -/
def evalProj (ev : PExpr → Except PErr Instance) :
    List NamedField → Except PErr (List (String × Instance))
  | [] => .ok []
  | f :: fs =>
    match f.name with
    | none => .error (.pyError "AssertionError")
    | some nm =>
      match ev f.value with
      | .error e => .error e
      | .ok v =>
        match evalProj ev fs with
        | .error e => .error e
        | .ok ps => .ok ((nm, v) :: ps)

/-- Python proper-subset test on key sets: `set(as) < set(bs)`. -/
def strictSubsetKeys (ks bs : List String) : Bool :=
  ks.all (fun a => bs.contains a) && !(bs.all (fun b => ks.contains b))

/-- The Update statement submitted for one row: assignments from the
projected fields, WHERE comparing column `id` to the row id. -/
def mkRowUpdate (tty : PqlType) (tname : String) (sqlProj : List (Sql × Sql))
    (idv : PyVal) : Sql :=
  Sql.update .null (Sql.tableName tty tname) sqlProj
    [Sql.compareB .bool "=" [Sql.name .int "id", Sql.primitive .int (pyStr idv)]]

/-- The per-row loop of `simplify(state, u: ast.Update)`: for each
localized row require an `id` key, require the projected keys to be a
proper subset of the row keys, and submit one Update.  Returns the
queries submitted before any error, and the error if one is raised. -/
def updateRows (tty : PqlType) (tname : String) (sqlProj : List (Sql × Sql))
    (projKeys : List String) : List Row → List Sql × Except PErr Unit
  | [] => ([], .ok ())
  | row :: rest =>
    match lookupRow row "id" with
    | none => ([], .error (.valueError "Update error: Table does not contain id"))
    | some idv =>
      if strictSubsetKeys projKeys (row.map Prod.fst) = false then
        ([], .error (.valueError "Update error: Not all keys exist in table"))
      else
        let res := updateRows tty tname sqlProj projKeys rest
        (mkRowUpdate tty tname sqlProj idv :: res.1, res.2)

/-- The `simplify` arm for `ast.Update`: require all fields named,
evaluate each RHS with the table columns in scope (evaluation is an
oracle over the pushed scope), build the SQL assignment map, and run the
per-row loop over the localized rows (localization is the `rows`
argument).  On success the evaluated table instance is returned. -/
def simplifyUpdate (evalRhs : List (String × Instance) → PExpr → Except PErr Instance)
    (rows : List Row) (table : UTableInst) (fields : List NamedField) :
    List Sql × Except PErr UTableInst :=
  if fields.all (fun f => f.name.isSome) = false then
    ([], .error (.pyError "AssertionError"))
  else
    match evalProj (evalRhs (updateScope table.columns)) fields with
    | .error e => ([], .error e)
    | .ok proj =>
      let sqlProj : List (Sql × Sql) := proj.map (fun p => (Sql.name p.2.type p.1, p.2.code))
      let res := updateRows table.ttype table.tname sqlProj (proj.map Prod.fst) rows
      (res.1, match res.2 with | .ok _ => .ok table | .error e => .error e)

/-! ### Scope discipline (`Namespace.use_scope`, `interp_common.py`) -/

/-- The `use_scope` context manager: record the depth, append the scope,
run the body (which returns its result — normal, error or signal —
together with the namespace stack as it stands on exit), then pop in the
`finally` block and assert the depth is restored.  An assert failure
replaces the in-flight result with a host AssertionError. -/
def useScope {V A : Type} (ns : NsStack V) (scope : Scope V)
    (body : NsStack V → Except PErr A × NsStack V) : Except PErr A × NsStack V :=
  let x := ns.length
  let r := body (ns ++ [scope])
  let popped := r.2.dropLast
  if popped.length = x then (r.1, popped)
  else (.error (.pyError "AssertionError"), popped)

/-! ### Function parameter matching (`Function.match_params`, `pql_objects.py`) -/

/-- Function parameter (`Param` of `pql_objects.py`; the type annotation
plays no role in matching). -/
structure PParam where
  name : String
  deriving DecidableEq

/-- Call argument: optionally named, with an abstract value. -/
structure PArg (V : Type) where
  name : Option String
  value : V

/-- Entries of the `matched` list: a (param, value) pair, or the
collector param with the leftover named arguments. -/
inductive Matched (V : Type) where
  | pair (p : PParam) (v : V)
  | collected (p : PParam) (leftover : List (Option String × V))

/-- Index of the first keyword argument, if any. -/
def firstKwIndex {V : Type} (args : List (PArg V)) : Option Nat :=
  args.findIdx? (fun a => a.name.isSome)

/-- Dict `pop`: remove the entry with the given key, returning its value
and the remaining entries. -/
def popKey {V : Type} (d : List (Option String × V)) (k : String) :
    Option (V × List (Option String × V)) :=
  match d with
  | [] => none
  | kv :: rest =>
    if kv.1 = some k then some (kv.2, rest)
    else (popKey rest k).map (fun vr => (vr.1, kv :: vr.2))

/-- The named-parameter loop of `match_params`.  For each named param the
source runs `matched.append(np, args_d.pop(np.name))`: a missing key
raises KeyError, converted to a Preql TypeError naming the param; but a
successful pop reaches `list.append` with two arguments, which raises a
host TypeError.  After the loop, an assert, then leftover named
arguments go to the collector — through the same two-argument `append` —
or raise a Preql TypeError (whose message is the literal
`$(keys(args_d))` template).  Error messages here elide quote marks. -/
def bindNamedParams {V : Type} (params : List PParam) (collector : Option PParam)
    (matched : List (Matched V)) (argsD : List (Option String × V)) :
    List PParam → Except PErr (List (Matched V))
  | np :: _ =>
    match popKey argsD np.name with
    | none => .error (.typeError ("Parameter wasnt assigned: " ++ np.name))
    | some _ => .error (.pyError "TypeError: append() takes exactly one argument (2 given)")
  | [] =>
    if matched.length ≠ params.length then .error (.pyError "AssertionError")
    else if argsD.isEmpty then .ok matched
    else
      match collector with
      | some _ => .error (.pyError "TypeError: append() takes exactly one argument (2 given)")
      | none => .error (.typeError "Function doesnt accept arguments named $(keys(args_d))")

/-- The `Function.match_params` method of `pql_objects.py`: split the
arguments at the first keyword argument, require the positional counts to
agree, zip the positional part, then bind the named parameters. -/
def matchParams {V : Type} (fname : String) (params : List PParam)
    (collector : Option PParam) (args : List (PArg V)) : Except PErr (List (Matched V)) :=
  let split : (List (PArg V) × List (PArg V)) × (List PParam × List PParam) :=
    match firstKwIndex args with
    | some i => ((args.take i, args.drop i), (params.take i, params.drop i))
    | none => ((args, []), (params, []))
  let posArgs := split.1.1
  let namedArgs := split.1.2
  let posParams := split.2.1
  let namedParams := split.2.2
  if posParams.length ≠ posArgs.length then
    .error (.typeError ("Function " ++ fname ++ " takes " ++ decRepr posParams.length ++
      " parameters but recieved " ++ decRepr posArgs.length ++ " arguments."))
  else
    let matched := (posParams.zip posArgs).map (fun pa => Matched.pair pa.1 pa.2.value)
    let argsD : List (Option String × V) := namedArgs.map (fun a => (a.name, a.value))
    bindNamedParams params collector matched argsD namedParams

/-! ## Theorems -/

/-! ### Decimal rendering: completeness and injectivity -/

theorem decDigitsAux_eval : ∀ (fuel n : Nat), n ≤ fuel → evalDigits (decDigitsAux fuel n) = n := by
  intro fuel
  induction fuel with
  | zero =>
    intro n h
    have hn : n = 0 := Nat.le_zero.mp h
    subst hn
    rfl
  | succ f ih =>
    intro n h
    by_cases hn : n = 0
    · subst hn; simp [decDigitsAux, evalDigits]
    · have hlt : n / 10 < n := Nat.div_lt_self (Nat.pos_of_ne_zero hn) (by norm_num)
      have hle : n / 10 ≤ f := by omega
      simp only [decDigitsAux, hn, if_false, evalDigits, ih _ hle]
      omega

theorem decDigits_eval (n : Nat) : evalDigits (decDigits n) = n :=
  decDigitsAux_eval n n le_rfl

theorem decDigitsAux_lt_ten : ∀ (fuel n d : Nat), d ∈ decDigitsAux fuel n → d < 10 := by
  intro fuel
  induction fuel with
  | zero => intro n d hd; simp [decDigitsAux] at hd
  | succ f ih =>
    intro n d hd
    by_cases hn : n = 0
    · subst hn; simp [decDigitsAux] at hd
    · simp only [decDigitsAux, hn, if_false, List.mem_cons] at hd
      rcases hd with h | h
      · subst h; exact Nat.mod_lt _ (by norm_num)
      · exact ih _ _ h

theorem pyDigitChar_inj : ∀ d, d < 10 → ∀ e, e < 10 → pyDigitChar d = pyDigitChar e → d = e := by
  decide

theorem map_pyDigitChar_inj : ∀ (l1 l2 : List Nat), (∀ d ∈ l1, d < 10) → (∀ d ∈ l2, d < 10) →
    l1.map pyDigitChar = l2.map pyDigitChar → l1 = l2 := by
  intro l1
  induction l1 with
  | nil =>
    intro l2 _ _ h
    cases l2 with
    | nil => rfl
    | cons b t => simp at h
  | cons a t ih =>
    intro l2 h1 h2 h
    cases l2 with
    | nil => simp at h
    | cons b t2 =>
      simp only [List.map_cons, List.cons.injEq] at h
      have hab := pyDigitChar_inj a (h1 a (by simp)) b (h2 b (by simp)) h.1
      subst hab
      have ht := ih t2 (fun d hd => h1 d (by simp [hd])) (fun d hd => h2 d (by simp [hd])) h.2
      simp [ht]

theorem decRepr_eq_zero (n : Nat) (h : decRepr n = "0") : n = 0 := by
  by_contra hn
  have hrep : decRepr n = String.mk ((decDigits n).reverse.map pyDigitChar) := by
    simp [decRepr, hn]
  rw [hrep] at h
  have hdata : (decDigits n).reverse.map pyDigitChar = ['0'] := congrArg String.data h
  have hb1 : ∀ d ∈ (decDigits n).reverse, d < 10 := by
    intro d hd
    exact decDigitsAux_lt_ten n n d (List.mem_reverse.mp hd)
  have heq : (decDigits n).reverse = [0] := by
    apply map_pyDigitChar_inj _ _ hb1 (by intro d hd; simp at hd; omega)
    simpa [pyDigitChar] using hdata
  have hdig : decDigits n = [0] := by
    have hrv := congrArg List.reverse heq
    simpa using hrv
  have hev := decDigits_eval n
  rw [hdig] at hev
  simp [evalDigits] at hev
  exact hn hev.symm

theorem decRepr_inj : ∀ m n : Nat, decRepr m = decRepr n → m = n := by
  intro m n h
  by_cases hm : m = 0
  · subst hm
    have := decRepr_eq_zero n (by rw [← h]; rfl)
    omega
  · by_cases hn : n = 0
    · subst hn
      have := decRepr_eq_zero m h
      omega
    · have hm' : decRepr m = String.mk ((decDigits m).reverse.map pyDigitChar) := by
        simp [decRepr, hm]
      have hn' : decRepr n = String.mk ((decDigits n).reverse.map pyDigitChar) := by
        simp [decRepr, hn]
      rw [hm', hn'] at h
      have hdata : (decDigits m).reverse.map pyDigitChar = (decDigits n).reverse.map pyDigitChar :=
        congrArg String.data h
      have hrev := map_pyDigitChar_inj _ _
        (fun d hd => decDigitsAux_lt_ten m m d (List.mem_reverse.mp hd))
        (fun d hd => decDigitsAux_lt_ten n n d (List.mem_reverse.mp hd)) hdata
      have hdig : decDigits m = decDigits n := by
        have hrv := congrArg List.reverse hrev
        simpa using hrv
      have h1 := decDigits_eval m
      have h2 := decDigits_eval n
      rw [hdig] at h1
      omega

theorem candName_inj : ∀ (base : String) (i j : Nat), candName base i = candName base j → i = j := by
  intro base i j h
  have hd : (base ++ decRepr i).data = (base ++ decRepr j).data := congrArg String.data h
  rw [String.data_append, String.data_append] at hd
  have hc := List.append_cancel_left hd
  exact decRepr_inj i j (String.ext hc)

/-! ### The collision-resolution loop finds the least fresh suffix -/

theorem exists_fresh (keys : List String) (base : String) (i0 : Nat) :
    ∃ j, j ≤ keys.length ∧ candName base (i0 + j) ∉ keys := by
  by_contra hcon
  push_neg at hcon
  have hsub : (Finset.range (keys.length + 1)).image (fun j => candName base (i0 + j)) ⊆
      keys.toFinset := by
    intro s hs
    rw [Finset.mem_image] at hs
    obtain ⟨j, hj, rfl⟩ := hs
    rw [Finset.mem_range] at hj
    exact List.mem_toFinset.mpr (hcon j (by omega))
  have hcard := Finset.card_le_card hsub
  have hinj : Set.InjOn (fun j => candName base (i0 + j)) (Finset.range (keys.length + 1)) := by
    intro a _ b _ hab
    have := candName_inj base (i0 + a) (i0 + b) hab
    omega
  rw [Finset.card_image_of_injOn hinj, Finset.card_range] at hcard
  have := keys.toFinset_card_le
  omega

theorem findSuffix_spec (keys : List String) (base : String) :
    ∀ (fuel i : Nat), (∃ j, j < fuel ∧ candName base (i + j) ∉ keys) →
      ∃ j, findSuffix keys base fuel i = candName base (i + j) ∧
        candName base (i + j) ∉ keys ∧ ∀ j2, j2 < j → candName base (i + j2) ∈ keys := by
  intro fuel
  induction fuel with
  | zero =>
    intro i h
    obtain ⟨j, hj, _⟩ := h
    omega
  | succ f ih =>
    intro i h
    by_cases hmem : candName base i ∈ keys
    · obtain ⟨j, hj, hfresh⟩ := h
      have hj0 : j ≠ 0 := by
        intro h0
        subst h0
        simp only [Nat.add_zero] at hfresh
        exact hfresh hmem
      obtain ⟨j2, heq, hfr, hmin⟩ := ih (i + 1)
        ⟨j - 1, by omega, by
          have harith : (i + 1) + (j - 1) = i + j := by omega
          rw [harith]; exact hfresh⟩
      refine ⟨j2 + 1, ?_, ?_, ?_⟩
      · simp only [findSuffix, if_pos hmem]
        have harith : i + (j2 + 1) = (i + 1) + j2 := by omega
        rw [harith]
        exact heq
      · have harith : i + (j2 + 1) = (i + 1) + j2 := by omega
        rw [harith]
        exact hfr
      · intro j3 hj3
        cases j3 with
        | zero => simpa using hmem
        | succ j4 =>
          have harith : i + (j4 + 1) = (i + 1) + j4 := by omega
          rw [harith]
          exact hmin j4 (by omega)
    · refine ⟨0, ?_, ?_, ?_⟩
      · simp [findSuffix, hmem]
      · simpa using hmem
      · intro j2 hj2; omega

theorem resolveFieldName_mem_spec (keys : List String) (base : String) (hmem : base ∈ keys) :
    ∃ i, 1 ≤ i ∧ resolveFieldName keys base = candName base i ∧ candName base i ∉ keys ∧
      ∀ j, 1 ≤ j → j < i → candName base j ∈ keys := by
  obtain ⟨j, hj, hfresh⟩ := exists_fresh keys base 1
  obtain ⟨j2, heq, hfr, hmin⟩ := findSuffix_spec keys base (keys.length + 1) 1
    ⟨j, by omega, hfresh⟩
  refine ⟨1 + j2, by omega, ?_, hfr, ?_⟩
  · simp only [resolveFieldName, if_pos hmem]
    exact heq
  · intro j3 h1 h3
    have hmin' := hmin (j3 - 1) (by omega)
    have harith : 1 + (j3 - 1) = j3 := by omega
    rwa [harith] at hmin'

theorem resolveFieldName_not_mem (keys : List String) (base : String) :
    resolveFieldName keys base ∉ keys := by
  by_cases hmem : base ∈ keys
  · obtain ⟨i, _, heq, hfr, _⟩ := resolveFieldName_mem_spec keys base hmem
    rw [heq]
    exact hfr
  · simp [resolveFieldName, hmem]

theorem addFieldName_keys (elems : List (String × PqlType)) (base : String) (t : PqlType) :
    (addFieldName elems base t).map Prod.fst =
      elems.map Prod.fst ++ [resolveFieldName (elems.map Prod.fst) base] := by
  simp [addFieldName]

theorem projElems_foldl_nodup :
    ∀ (fs : List (String × Instance)) (acc : List (String × PqlType)),
      (acc.map Prod.fst).Nodup →
      ((fs.foldl (fun acc f => addFieldName acc f.1 f.2.type) acc).map Prod.fst).Nodup := by
  intro fs
  induction fs with
  | nil => intro acc h; simpa using h
  | cons f rest ih =>
    intro acc h
    simp only [List.foldl_cons]
    apply ih
    rw [addFieldName_keys, List.nodup_append]
    refine ⟨h, List.nodup_singleton _, ?_⟩
    intro a ha hb
    simp only [List.mem_singleton] at hb
    subst hb
    exact resolveFieldName_not_mem _ _ ha

theorem projElems_nodup (fs : List (String × Instance)) :
    ((projElems fs).map Prod.fst).Nodup :=
  projElems_foldl_nodup fs [] (by simp)

/-- C8: when building the output table type of a projection, a field
whose suggested name is not yet present keeps its name (earlier fields
are never renamed — each step only appends), a colliding later field
gets the suffixed name `name + str(i)` for the least `i ≥ 1` making it
fresh, and the resulting element-name list has no duplicates. -/
theorem claim_C8_collision_suffix :
    (∀ all_fields : List (String × Instance), ((projElems all_fields).map Prod.fst).Nodup) ∧
    (∀ (elems : List (String × PqlType)) (nm : String) (t : PqlType),
      (nm ∉ elems.map Prod.fst → addFieldName elems nm t = elems ++ [(nm, t)]) ∧
      (nm ∈ elems.map Prod.fst →
        ∃ i, 1 ≤ i ∧ addFieldName elems nm t = elems ++ [(nm ++ decRepr i, t)] ∧
          (nm ++ decRepr i) ∉ elems.map Prod.fst ∧
          ∀ j, 1 ≤ j → j < i → (nm ++ decRepr j) ∈ elems.map Prod.fst)) := by
  constructor
  · exact projElems_nodup
  · intro elems nm t
    constructor
    · intro hnm
      simp [addFieldName, resolveFieldName, hnm]
    · intro hnm
      obtain ⟨i, h1, h2, h3, h4⟩ := resolveFieldName_mem_spec (elems.map Prod.fst) nm hnm
      refine ⟨i, h1, ?_, ?_, ?_⟩
      · simp only [addFieldName, h2]
        rfl
      · simpa [candName] using h3
      · intro j hj1 hj2
        simpa [candName] using h4 j hj1 hj2

/-- Witness for C8 at a concrete collision: inserting a second field
named `a` after an existing `a`. -/
theorem claim_C8_collision_suffix_witness :
    ∃ i, 1 ≤ i ∧ addFieldName [("a", PqlType.int)] "a" PqlType.int =
        [("a", PqlType.int)] ++ [("a" ++ decRepr i, PqlType.int)] ∧
      ("a" ++ decRepr i) ∉ ([("a", PqlType.int)].map Prod.fst) ∧
      ∀ j, 1 ≤ j → j < i → ("a" ++ decRepr j) ∈ ([("a", PqlType.int)].map Prod.fst) :=
  (claim_C8_collision_suffix.2 [("a", PqlType.int)] "a" PqlType.int).2 (by simp)

/-- C9: projecting the evaluated empty-list value returns the empty list
itself, whatever the fields, grouping flag and aggregate fields are, and
whatever field evaluation would do — the short-circuit precedes the
subtype check, the ellipsis expansion and all field evaluation, so no
TypeError can arise. -/
theorem claim_C9_emptylist_projection (env : ProjEnv) (fields aggFields : List NamedField)
    (groupby : Bool) :
    compileProjection env .emptyList fields groupby aggFields = .ok .emptyList := rfl

/-- C1: a projection of an instance compiled with the groupby flag emits
a Select whose group_by lists the integer primitives `1 .. n` (where `n`
is the number of processed non-aggregate fields) with no limit when
`n ≠ 0`, and emits no group_by with limit `1` when `n = 0`. -/
theorem claim_C1_groupby_select (env : ProjEnv) (i : Instance)
    (fields aggFields fields2 : List NamedField)
    (pfields : List (String × Instance)) (out : Instance)
    (hexp : expandEllipsis (env.colNames i.type) fields = .ok fields2)
    (hproc : processFields env.evalExpr env.primaryKey fields2 = .ok pfields)
    (hok : compileProjection env (.inst i) fields true aggFields = .ok (.inst out)) :
    ∃ (src : Sql) (sf : List Sql),
      out.code = Sql.select out.type src sf
        (if pfields.isEmpty then [] else posRefs pfields.length)
        (if pfields.isEmpty then some (Sql.primitive PqlType.int "1") else none) := by
  simp only [compileProjection, PValue.typeOf] at hok
  split at hok
  · exact absurd hok (by simp)
  · simp only [hexp] at hok
    split at hok
    · exact absurd hok (by simp)
    · simp only [hproc] at hok
      split at hok
      · exact absurd hok (by simp)
      · split at hok
        · exact absurd hok (by simp)
        · split at hok
          · exact absurd hok (by simp)
          · rename_i zipped heqzip
            simp only [Except.ok.injEq, PValue.inst.injEq] at hok
            subst hok
            by_cases hpe : pfields.isEmpty
            · exact ⟨(PValue.inst i).codeOf,
                List.map (fun cz => Sql.columnAlias cz.1 cz.2.1) zipped, by simp [hpe]⟩
            · exact ⟨(PValue.inst i).codeOf,
                List.map (fun cz => Sql.columnAlias cz.1 cz.2.1) zipped, by simp [hpe]⟩

/-- Witness for C1: one int field selected from a one-column table under
groupby; the emitted Select groups by the positional reference 1 and has
no limit. -/
theorem claim_C1_groupby_select_witness :
    ∃ (src : Sql) (sf : List Sql),
      (Instance.mk
          (Sql.select (PqlType.table [("a", PqlType.int)]) (Sql.name PqlType.tableK "t")
            [Sql.columnAlias (Sql.name PqlType.int "a") "a"] (posRefs 1) none)
          (PqlType.table [("a", PqlType.int)]) none).code
        = Sql.select (PqlType.table [("a", PqlType.int)]) src sf (posRefs 1) none :=
  claim_C1_groupby_select
    { evalExpr := fun _ => .ok (Instance.mk (Sql.name PqlType.int "a") PqlType.int none),
      evalAggExpr := fun _ => .ok (Instance.mk (Sql.name PqlType.int "a") PqlType.int none),
      primaryKey := fun x => x,
      flattenCode := fun inst => [inst.code],
      flattenType := fun t => match t with | .table es => es | _ => [],
      colNames := fun _ => [] }
    (Instance.mk (Sql.name PqlType.tableK "t") (PqlType.table [("a", PqlType.int)]) none)
    [⟨none, .nameE "a"⟩] [] [⟨none, .nameE "a"⟩]
    [("a", Instance.mk (Sql.name PqlType.int "a") PqlType.int none)]
    (Instance.mk
      (Sql.select (PqlType.table [("a", PqlType.int)]) (Sql.name PqlType.tableK "t")
        [Sql.columnAlias (Sql.name PqlType.int "a") "a"] (posRefs 1) none)
      (PqlType.table [("a", PqlType.int)]) none)
    rfl rfl rfl

/-! ### Comparison and arithmetic typing lemmas -/

theorem isSubtype_float_iff (t : PqlType) : isSubtype t .float = true ↔ t = .float := by
  cases t
  case float => exact ⟨fun _ => rfl, fun _ => rfl⟩
  all_goals exact ⟨fun h => Bool.noConfusion h, fun h => by cases h⟩

/-- C10: comparing two operands both typed null produces the constant
true value-instance whatever the comparison operator is (also for `!=`,
`<`, `<=`, `>`, `>=`), for any contains oracle, optimization setting,
host comparison and primary-key function. -/
theorem claim_C10_null_null_compare
    (containsF : String → Instance → Instance → Except PErr Instance)
    (optimize : Bool) (hostCmp : String → PyVal → PyVal → Bool) (pk : Instance → Instance)
    (op : String) (a b : Instance)
    (hop1 : op ≠ "in") (hop2 : op ≠ "!in")
    (ha : a.type = .null) (hb : b.type = .null) :
    compileCompare containsF optimize hostCmp pk op a b =
      .ok (newValueInstance (.bool true) .bool) := by
  have h1 : (op == "in") = false := beq_eq_false_iff_ne.mpr hop1
  have h2 : (op == "!in") = false := beq_eq_false_iff_ne.mpr hop2
  simp only [compileCompare, h1, h2, Bool.or_self, Bool.false_or, Bool.or_false, if_false,
    compareDispatch, ha, hb]
  rfl

/-- Witness for C10: the operator `<` on two null instances. -/
theorem claim_C10_null_null_compare_witness :
    compileCompare (fun _ a _ => .ok a) true (fun _ _ _ => false) (fun x => x) "<"
      (Instance.mk Sql.nullLit PqlType.null none) (Instance.mk Sql.nullLit PqlType.null none)
      = .ok (newValueInstance (.bool true) .bool) :=
  claim_C10_null_null_compare (fun _ a _ => .ok a) true (fun _ _ _ => false) (fun x => x) "<"
    (Instance.mk Sql.nullLit PqlType.null none) (Instance.mk Sql.nullLit PqlType.null none)
    (by decide) (by decide) rfl rfl

/-- C5: for a binary arithmetic operation on two numbers the result
instance is typed float exactly when the operator is `/` or one of the
operand types is float, and typed int otherwise — on the local constant
folding path and on the emitted SQL Arith path alike (the conclusion
covers every successful outcome for every optimization setting and every
host arithmetic). -/
theorem claim_C5_number_arith_type (optimize : Bool)
    (hostArith : String → PyVal → PyVal → PyVal) (op : String) (a b : Instance) (r : Instance)
    (ha : isSubtype a.type .number = true) (hb : isSubtype b.type .number = true)
    (hok : compileArithNumNum optimize hostArith op a b = .ok r) :
    (r.type = .float ∨ r.type = .int) ∧
      (r.type = .float ↔ (op = "/" ∨ a.type = .float ∨ b.type = .float)) := by
  have hres : r.type = arithResType op a.type b.type := by
    unfold compileArithNumNum at hok
    split at hok
    · split at hok
      · split at hok
        · simp only [Except.ok.injEq] at hok
          subst hok
          rfl
        · exact absurd hok (by simp)
      · simp only [Except.ok.injEq] at hok
        subst hok
        rfl
    · simp only [Except.ok.injEq] at hok
      subst hok
      rfl
  by_cases hc : (op == "/" || isSubtype a.type .float || isSubtype b.type .float) = true
  · have hf : r.type = .float := by
      rw [hres]
      simp only [arithResType, hc, if_true]
    refine ⟨Or.inl hf, ?_⟩
    simp only [hf, true_iff]
    rcases Bool.or_eq_true_iff.mp hc with hcc | hcb
    · rcases Bool.or_eq_true_iff.mp hcc with hco | hca
      · exact Or.inl (by exact beq_iff_eq.mp hco)
      · exact Or.inr (Or.inl ((isSubtype_float_iff _).mp hca))
    · exact Or.inr (Or.inr ((isSubtype_float_iff _).mp hcb))
  · have hi : r.type = .int := by
      rw [hres]
      simp [arithResType, hc]
    refine ⟨Or.inr hi, ?_⟩
    rw [hi]
    simp only [Bool.or_eq_true_iff, not_or] at hc
    obtain ⟨⟨hco, hca⟩, hcb⟩ := hc
    constructor
    · intro hcontra
      exact absurd hcontra (by simp)
    · intro hcontra
      rcases hcontra with h | h | h
      · exact absurd (beq_iff_eq.mpr h) hco
      · exact absurd ((isSubtype_float_iff _).mpr h) hca
      · exact absurd ((isSubtype_float_iff _).mpr h) hcb

/-- Witness for C5: folding `3 + 4` over int value instances yields an
int-typed instance. -/
theorem claim_C5_number_arith_type_witness :
    ((newValueInstance (.int 7) PqlType.int).type = .float ∨
        (newValueInstance (.int 7) PqlType.int).type = .int) ∧
      ((newValueInstance (.int 7) PqlType.int).type = .float ↔
        ("+" = "/" ∨ (Instance.mk Sql.nullLit PqlType.int (some (PyVal.int 3))).type = .float ∨
          (Instance.mk Sql.nullLit PqlType.int (some (PyVal.int 4))).type = .float)) :=
  claim_C5_number_arith_type true (fun _ _ _ => PyVal.int 7) "+"
    (Instance.mk Sql.nullLit PqlType.int (some (PyVal.int 3)))
    (Instance.mk Sql.nullLit PqlType.int (some (PyVal.int 4)))
    (newValueInstance (.int 7) PqlType.int) rfl rfl rfl

/-! ### The Or short-circuit -/

/-- C3: with evaluation and the nonzero test error-free, the Or loop
returns the instance of the first operand, in order, whose instance
tests nonzero, and the instance of the last operand when every operand
tests falsy (never a boolean false). -/
theorem claim_C3_or_first_nonzero {α β : Type} (f : α → β) (g : β → Bool)
    (args : List α) (h : args ≠ []) :
    simplifyOr (fun a => .ok (f a)) (fun b => .ok (g b)) args =
      .ok (match args.find? (fun a => g (f a)) with
           | some a => f a
           | none => f (args.getLast h)) := by
  induction args with
  | nil => exact absurd rfl h
  | cons x xs ih =>
    by_cases hx : g (f x) = true
    · simp [simplifyOr, hx, List.find?_cons_of_pos _ hx]
    · have hx' : g (f x) = false := by
        cases hgf : g (f x)
        · rfl
        · exact absurd hgf hx
      cases xs with
      | nil => simp [simplifyOr, hx', List.find?, List.getLast]
      | cons y ys =>
        have hys : (y :: ys : List α) ≠ [] := by simp
        rw [List.find?_cons_of_neg _ (by simp [hx'])]
        have hlast : (x :: y :: ys : List α).getLast h = (y :: ys).getLast hys := by
          simp [List.getLast]
        rw [hlast]
        rw [← ih hys]
        simp [simplifyOr, hx']

/-- Witness for C3: the list `[0, 5]` under the evaluation `id` and the
test `!= 0` returns 5, the first (and here last) nonzero instance. -/
theorem claim_C3_or_first_nonzero_witness :
    ([0, 5] : List Nat) ≠ [] ∧
      simplifyOr (fun a => .ok (id a)) (fun b => .ok (b != 0)) [0, 5] =
        .ok (match ([0, 5] : List Nat).find? (fun a => (id a) != 0) with
             | some a => id a
             | none => id (([0, 5] : List Nat).getLast (by decide))) :=
  ⟨by decide, claim_C3_or_first_nonzero (id : Nat → Nat) (fun b => b != 0) [0, 5] (by decide)⟩

/-! ### Scope discipline -/

/-- C7: `use_scope` restores the namespace depth on every exit path.
For any body whose own execution is depth-balanced, the stack depth
after `use_scope` equals the depth before it, and the body result —
normal value, raised error or ReturnSignal alike — passes through
unchanged. -/
theorem claim_C7_use_scope_balanced {V A : Type} (ns : NsStack V) (scope : Scope V)
    (body : NsStack V → Except PErr A × NsStack V)
    (hbal : ∀ s, ((body s).2).length = s.length) :
    ((useScope ns scope body).2).length = ns.length ∧
      (useScope ns scope body).1 = (body (ns ++ [scope])).1 := by
  have h1 : ((body (ns ++ [scope])).2).length = ns.length + 1 := by
    rw [hbal]
    simp
  have h2 : ((body (ns ++ [scope])).2.dropLast).length = ns.length := by
    rw [List.length_dropLast, h1]
    omega
  have hus : useScope ns scope body =
      ((body (ns ++ [scope])).1, (body (ns ++ [scope])).2.dropLast) := by
    simp only [useScope]
    rw [if_pos h2]
  rw [hus]
  exact ⟨h2, rfl⟩

/-- Witness for C7: a body that raises ReturnSignal while leaving the
stack depth unchanged; the depth after `use_scope` is the depth before
(1) and the signal propagates. -/
theorem claim_C7_use_scope_balanced_witness :
    ((useScope ([[("x", 1)]] : NsStack Nat) []
        (fun s => ((.error .returnSignal : Except PErr Nat), s))).2).length = 1 ∧
      (useScope ([[("x", 1)]] : NsStack Nat) []
        (fun s => ((.error .returnSignal : Except PErr Nat), s))).1 =
        ((fun (s : NsStack Nat) => ((.error .returnSignal : Except PErr Nat), s))
          ([[("x", 1)]] ++ [[]])).1 :=
  claim_C7_use_scope_balanced [[("x", 1)]] []
    (fun s => ((.error .returnSignal : Except PErr Nat), s)) (fun _ => rfl)

/-! ### The Try statement -/

/-- Counterexample for C4: a raised ValueError whose class matches the
caught type runs the catch block in the unchanged namespace, so a catch
block that reads `catch_name` finds nothing — while the claimed
semantics (error bound to `catch_name`) would find the error value. -/
theorem claim_C4_try_counterexample :
    executeTry ([[]] : NsStack PqlExcVal)
        (fun _ => .preqlRaised ⟨.valueErrorC, "bad"⟩)
        (fun _ => .ok .valueErrorC)
        (some "e")
        (fun ns => if (lookupNs ns "e").isSome then .ok else .hostRaised "NameNotFound: e")
      = .hostRaised "NameNotFound: e" ∧
    executeTrySpec (fun e => e) ([[]] : NsStack PqlExcVal)
        (fun _ => .preqlRaised ⟨.valueErrorC, "bad"⟩)
        (fun _ => .ok .valueErrorC)
        (some "e")
        (fun ns => if (lookupNs ns "e").isSome then .ok else .hostRaised "NameNotFound: e")
      = .ok := ⟨rfl, rfl⟩

/-- C4 (amended): executing Try runs the try block; when it raises a
PreqlError whose runtime class is a subclass of the evaluated caught
type, the catch block is executed in the unchanged namespace — the error
is not bound to `catch_name` — otherwise the error is re-raised
unchanged; any non-PreqlError exception propagates. -/
theorem claim_C4_try_no_binding {V : Type} (ns : NsStack V)
    (runTry : NsStack V → ExecResult)
    (evalCatchExpr : NsStack V → Except PqlExcVal PqlExcClass)
    (catchName : Option String) (runCatch : NsStack V → ExecResult) :
    (runTry ns = .ok → executeTry ns runTry evalCatchExpr catchName runCatch = .ok) ∧
    (∀ t, runTry ns = .hostRaised t →
      executeTry ns runTry evalCatchExpr catchName runCatch = .hostRaised t) ∧
    (∀ e cls, runTry ns = .preqlRaised e → evalCatchExpr ns = .ok cls →
      executeTry ns runTry evalCatchExpr catchName runCatch =
        (if excSubclass e.cls cls then runCatch ns else .preqlRaised e)) := by
  refine ⟨?_, ?_, ?_⟩
  · intro h
    simp [executeTry, h]
  · intro t h
    simp [executeTry, h]
  · intro e cls h1 h2
    simp [executeTry, h1, h2]

/-- Witness for C4 (amended): a TypeError caught by the PreqlError base
class runs the catch block on the original namespace. -/
theorem claim_C4_try_no_binding_witness :
    executeTry ([[]] : NsStack Nat) (fun _ => .preqlRaised ⟨.typeErrorC, "boom"⟩)
        (fun _ => .ok .preqlError) (some "e") (fun _ => .ok) =
      (if excSubclass (PqlExcVal.mk .typeErrorC "boom").cls PqlExcClass.preqlError then
        (fun (_ : NsStack Nat) => ExecResult.ok) [[]]
       else .preqlRaised ⟨.typeErrorC, "boom"⟩) :=
  (claim_C4_try_no_binding ([[]] : NsStack Nat) (fun _ => .preqlRaised ⟨.typeErrorC, "boom"⟩)
    (fun _ => .ok .preqlError) (some "e") (fun _ => .ok)).2.2
    ⟨.typeErrorC, "boom"⟩ .preqlError rfl rfl

/-! ### The Update statement -/

theorem updateRows_all_good (tty : PqlType) (tname : String) (sqlProj : List (Sql × Sql))
    (projKeys : List String) :
    ∀ rows : List Row,
      (∀ row ∈ rows, ∃ idv, lookupRow row "id" = some idv ∧
        strictSubsetKeys projKeys (row.map Prod.fst) = true) →
      updateRows tty tname sqlProj projKeys rows =
        (rows.map (fun row => mkRowUpdate tty tname sqlProj ((lookupRow row "id").getD .vnone)),
         .ok ()) := by
  intro rows
  induction rows with
  | nil => intro _; rfl
  | cons row rest ih =>
    intro hgood
    obtain ⟨idv, hid, hsub⟩ := hgood row (by simp)
    have hrest := ih (fun r hr => hgood r (by simp [hr]))
    simp [updateRows, hid, hsub, hrest]

theorem updateRows_missing_id (tty : PqlType) (tname : String) (sqlProj : List (Sql × Sql))
    (projKeys : List String) :
    ∀ (good : List Row) (bad : Row) (rest : List Row),
      (∀ row ∈ good, ∃ idv, lookupRow row "id" = some idv ∧
        strictSubsetKeys projKeys (row.map Prod.fst) = true) →
      lookupRow bad "id" = none →
      updateRows tty tname sqlProj projKeys (good ++ bad :: rest) =
        (good.map (fun row => mkRowUpdate tty tname sqlProj ((lookupRow row "id").getD .vnone)),
         .error (.valueError "Update error: Table does not contain id")) := by
  intro good
  induction good with
  | nil =>
    intro bad rest _ hbad
    simp [updateRows, hbad]
  | cons row g ih =>
    intro bad rest hgood hbad
    obtain ⟨idv, hid, hsub⟩ := hgood row (by simp)
    have hrec := ih bad rest (fun r hr => hgood r (by simp [hr])) hbad
    simp [updateRows, hid, hsub, hrec]

/-- Counterexample for C6: one localized row that does contain the `id`
key, one updated field whose name is not among the row keys — the Update
path submits no query at all and raises a ValueError, although the claim
promises one submitted Update per localized row with a WHERE on the id
of that row. -/
theorem claim_C6_update_counterexample :
    simplifyUpdate (fun _ _ => .ok (Instance.mk (Sql.primitive PqlType.int "5") PqlType.int none))
        [[("id", PyVal.int 1)]]
        (UTableInst.mk (PqlType.table [("id", PqlType.int)]) "t"
          [("id", Instance.mk Sql.nullLit PqlType.int none)] Sql.nullLit)
        [⟨some "x", .other 0 "_"⟩] =
      ([], .error (.valueError "Update error: Not all keys exist in table")) := rfl

/-- C6 (amended): Update evaluates each field RHS with the table columns
in scope and then walks the localized rows; a row missing the `id` key
raises a ValueError (after submitting the updates of the rows before
it); a row whose key set does not strictly contain the updated field
names also raises a ValueError; when every row has an id and strictly
covers the updated names, exactly one Update per row is submitted, its
WHERE comparing column `id` to the id value of that row. -/
theorem claim_C6_update_per_row
    (evalRhs : List (String × Instance) → PExpr → Except PErr Instance)
    (rows : List Row) (table : UTableInst) (fields : List NamedField)
    (proj : List (String × Instance))
    (hnamed : fields.all (fun f => f.name.isSome) = true)
    (hproj : evalProj (evalRhs (updateScope table.columns)) fields = .ok proj) :
    ((∀ row ∈ rows, ∃ idv, lookupRow row "id" = some idv ∧
        strictSubsetKeys (proj.map Prod.fst) (row.map Prod.fst) = true) →
      simplifyUpdate evalRhs rows table fields =
        (rows.map (fun row => mkRowUpdate table.ttype table.tname
            (proj.map (fun p => (Sql.name p.2.type p.1, p.2.code)))
            ((lookupRow row "id").getD .vnone)),
         .ok table)) ∧
    (∀ (good : List Row) (bad : Row) (rest : List Row),
      rows = good ++ bad :: rest →
      (∀ row ∈ good, ∃ idv, lookupRow row "id" = some idv ∧
        strictSubsetKeys (proj.map Prod.fst) (row.map Prod.fst) = true) →
      lookupRow bad "id" = none →
      simplifyUpdate evalRhs rows table fields =
        (good.map (fun row => mkRowUpdate table.ttype table.tname
            (proj.map (fun p => (Sql.name p.2.type p.1, p.2.code)))
            ((lookupRow row "id").getD .vnone)),
         .error (.valueError "Update error: Table does not contain id"))) := by
  constructor
  · intro hgood
    have hrows := updateRows_all_good table.ttype table.tname
      (proj.map (fun p => (Sql.name p.2.type p.1, p.2.code))) (proj.map Prod.fst) rows hgood
    simp [simplifyUpdate, hnamed, hproj, hrows]
  · intro good bad rest hsplit hgood hbad
    subst hsplit
    have hrows := updateRows_missing_id table.ttype table.tname
      (proj.map (fun p => (Sql.name p.2.type p.1, p.2.code))) (proj.map Prod.fst)
      good bad rest hgood hbad
    simp [simplifyUpdate, hnamed, hproj, hrows]

/-- Witness for C6 (amended): a single row with an id and one updated
column that exists in the row; exactly one Update is submitted, keyed on
id 1. -/
theorem claim_C6_update_per_row_witness :
    simplifyUpdate
        (fun _ _ => .ok (Instance.mk (Sql.primitive PqlType.int "5") PqlType.int none))
        [[("id", PyVal.int 1), ("a", PyVal.int 2)]]
        (UTableInst.mk (PqlType.table [("id", PqlType.int), ("a", PqlType.int)]) "t"
          [("a", Instance.mk Sql.nullLit PqlType.int none)] Sql.nullLit)
        [⟨some "a", .other 0 "_"⟩] =
      (([[("id", PyVal.int 1), ("a", PyVal.int 2)]] : List Row).map
          (fun row => mkRowUpdate (PqlType.table [("id", PqlType.int), ("a", PqlType.int)]) "t"
            ([("a", Instance.mk (Sql.primitive PqlType.int "5") PqlType.int none)].map
              (fun p => (Sql.name p.2.type p.1, p.2.code)))
            ((lookupRow row "id").getD .vnone)),
       .ok (UTableInst.mk (PqlType.table [("id", PqlType.int), ("a", PqlType.int)]) "t"
          [("a", Instance.mk Sql.nullLit PqlType.int none)] Sql.nullLit)) :=
  (claim_C6_update_per_row
    (fun _ _ => .ok (Instance.mk (Sql.primitive PqlType.int "5") PqlType.int none))
    [[("id", PyVal.int 1), ("a", PyVal.int 2)]]
    (UTableInst.mk (PqlType.table [("id", PqlType.int), ("a", PqlType.int)]) "t"
      [("a", Instance.mk Sql.nullLit PqlType.int none)] Sql.nullLit)
    [⟨some "a", .other 0 "_"⟩]
    [("a", Instance.mk (Sql.primitive PqlType.int "5") PqlType.int none)]
    rfl rfl).1
    (by
      intro row hr
      simp only [List.mem_singleton] at hr
      subst hr
      exact ⟨PyVal.int 1, rfl, rfl⟩)

/-! ### Function parameter matching -/

/-- C2: the failing input for `match_params` — one parameter `x` and one
matching named argument `x = 1`.  The claim (and the spec) promise a
successful match binding `x` once; the source instead reaches
`matched.append(np, args_d.pop(np.name))`, a two-argument call of
`list.append`, and crashes with a host TypeError that names no
parameter. -/
theorem claim_C2_match_params_crash :
    matchParams "f" [⟨"x"⟩] none [⟨some "x", (1 : Nat)⟩] =
      .error (.pyError "TypeError: append() takes exactly one argument (2 given)") := rfl

end Preql
